import Mathlib

/-!
# Verification of the manga-reader batched analysis pipeline

Shallow embedding of the analysis cache / fetch coordinator
(`src/components/Reader.tsx`, `processBatch` and the trigger and speech
effects) and of the analysis-service wrapper
(`src/utils/ocr.ts`, `analyzeMangaPages`).

Conventions of the embedding:
* The sparse JS object `analysisCache` becomes a function
  `Nat → Option PageAnalysis` (`none` = the spec's `pending`, no entry).
* The JS `Set` `processingQueue` becomes a `List Nat` used as a set
  (`add` = cons under the not-member guard, `delete` = `List.erase`).
* Asynchronous external outcomes (image preparation, the analysis
  service response) are passed in explicitly as data, so one call of
  `processBatch` is a function of the prior state and those outcomes.
* JS exceptions become constructors of the outcome types; a function
  that catches everything (as `analyzeMangaPages` does) is total here.
-/

/-- Status of a page's analysis entry: the `status` union of
`PageAnalysis` in `src/types` (`'loading' | 'complete' | 'error'`);
the spec's `pending` is the absence of an entry. -/
inductive PageStatus where
  | loading
  | complete
  | error
deriving DecidableEq, Repr

/-- A detected speech bubble (`SpeechBubble` in `src/types`).  The
source stores the box as the array `box_2d = [ymin, xmin, ymax, xmax]`
(0–1000 scale); here the four components are named fields, so
`box_2d[0] = ymin` and `box_2d[1] = xmin`. -/
structure SpeechBubble where
  text : String
  ymin : Int
  xmin : Int
  ymax : Int
  xmax : Int
deriving DecidableEq, Repr

/-- One page's analysis entry (`PageAnalysis` in `src/types`). -/
structure PageAnalysis where
  bubbles : List SpeechBubble
  status : PageStatus
deriving DecidableEq, Repr

/-- The sparse analysis cache (`OCRCache` in `src/types`): page index to
entry; `none` models a key that is absent. -/
abbrev OCRCache := Nat → Option PageAnalysis

/-- The cache with no entries. -/
def emptyCache : OCRCache := fun _ => none

/-- Status of page `i` in cache `c`; `none` is the spec's `pending`. -/
def statusOf (c : OCRCache) (i : Nat) : Option PageStatus :=
  (c i).map PageAnalysis.status

/-- The test `cache[i]?.status === 'complete'` from `processBatch`. -/
def statusIsComplete (e : Option PageAnalysis) : Bool :=
  match e with
  | some a => a.status = PageStatus.complete
  | none => false

/-- The comparator passed to `bubbles.sort` in `processBatch`
(`Reader.tsx`): `yDiff = a.box_2d[0] - b.box_2d[0]`; if
`Math.abs(yDiff) > 50` return `yDiff`, else return
`b.box_2d[1] - a.box_2d[1]` (descending `xmin` inside a visual row). -/
def bubbleCmp (a b : SpeechBubble) : Int :=
  let yDiff := a.ymin - b.ymin
  if yDiff.natAbs > 50 then yDiff else b.xmin - a.xmin

/-- Stable insertion of `x` into `l`: `x` is placed before the first
element it compares strictly below, after everything it ties with or
exceeds — the placement a stable comparison sort gives an element
arriving after the elements of `l`. -/
def insertBubble (x : SpeechBubble) : List SpeechBubble → List SpeechBubble
  | [] => [x]
  | y :: ys => if bubbleCmp x y < 0 then x :: y :: ys else y :: insertBubble x ys

/-- `bubbles.sort(comparator)` from `processBatch`, modelled as the
stable insertion sort under `bubbleCmp` (JS `Array.prototype.sort` is
required to be stable). -/
def sortBubbles (l : List SpeechBubble) : List SpeechBubble :=
  l.foldl (fun acc x => insertBubble x acc) []

/-- Outcome of the external analysis request inside `analyzeMangaPages`
(`src/utils/ocr.ts`), covering every branch of that function:
the `generateContent` call throwing, a falsy `response.text`, a
`JSON.parse` (or element access) exception, a parsed value that is not
an array, and a parsed array whose elements each either carry a
`bubbles` list or not (`pageResult.bubbles || []`). -/
inductive ServiceResponse where
  | throwsError
  | emptyText
  | unparseable
  | nonArray
  | parsedArray (pages : List (Option (List SpeechBubble)))
deriving DecidableEq, Repr

/-- `true` on every branch of `ServiceResponse` that the source treats
by returning `base64Images.map(() => [])`. -/
def ServiceResponse.isFailure : ServiceResponse → Bool
  | .parsedArray _ => false
  | _ => true

/-- `analyzeMangaPages` (`src/utils/ocr.ts`): `n` is the length of the
`base64Images` argument and `resp` the outcome of the service
interaction.  All four failure branches return
`base64Images.map(() => [])`; a parsed array returns
`parsed.map(pageResult => pageResult.bubbles || [])` — note that this
list has the length of the *parsed array*, not of the input.  The
source wraps everything in `try`/`catch`, so the function is total. -/
def analyzeMangaPages (n : Nat) (resp : ServiceResponse) : List (List SpeechBubble) :=
  match resp with
  | .parsedArray ps => ps.map (fun o => o.getD [])
  | _ => List.replicate n []

/-- `const BATCH_SIZE = 4` (`Reader.tsx`). -/
def BATCH_SIZE : Nat := 4

/-- State touched by `processBatch`: the in-flight batch set
(`processingQueue.current`, a JS `Set<number>`) and the analysis
cache. -/
structure PBState where
  queue : List Nat
  cache : OCRCache

/-- The first `setAnalysisCache` write of `processBatch` (step 4):
every page in `[sp, ep)` whose status is not `'complete'` is set to
`{ bubbles: [], status: 'loading' }`; complete pages are left alone. -/
def setLoading (sp ep : Nat) (c : OCRCache) : OCRCache :=
  fun i =>
    if sp ≤ i ∧ i < ep ∧ statusIsComplete (c i) = false then
      some ⟨[], PageStatus.loading⟩
    else c i

/-- The `catch` write of `processBatch`: every page in `[sp, ep)` is
set to `{ bubbles: [], status: 'error' }` — with no completeness
check. -/
def setError (sp ep : Nat) (c : OCRCache) : OCRCache :=
  fun i =>
    if sp ≤ i ∧ i < ep then some ⟨[], PageStatus.error⟩ else c i

/-- The success write of `processBatch` (step 7):
`batchResults.forEach((bubbles, rel) => nextState[sp + rel] =
{ bubbles: sorted, status: 'complete' })` — indexed over the *result*
list, unconditionally, with no range or completeness check. -/
def applyResults (sp : Nat) (results : List (List SpeechBubble)) (c : OCRCache) : OCRCache :=
  fun i =>
    if sp ≤ i ∧ i - sp < results.length then
      some ⟨sortBubbles (results.getD (i - sp) []), PageStatus.complete⟩
    else c i

/-- The `allLoaded` loop of `processBatch` (step 2): every page of
`[sp, ep)` already has status `'complete'`. -/
def allComplete (sp ep : Nat) (c : OCRCache) : Bool :=
  (List.range' sp (ep - sp)).all fun i => statusIsComplete (c i)

/-- The asynchronous outcomes one `processBatch` call can observe:
either `Promise.all(imagePromises)` rejects (`blobUrlToBase64`
failure), before any service call is issued, or the images are
prepared and `analyzeMangaPages` runs against a service response. -/
inductive FetchOutcome where
  | prepFailure
  | service (resp : ServiceResponse)
deriving DecidableEq, Repr

/-- The result of one `processBatch` call: the final state, the list of
caches produced by each `setAnalysisCache` call in order, and whether
an external analysis request was issued. -/
structure PBRun where
  state : PBState
  writes : List OCRCache
  requested : Bool

/-- `processBatch` (`Reader.tsx`), one call as a function of the prior
state and the outcomes of its awaits.  Guard 1: member of
`processingQueue` → no-op.  Guard 2: all pages of the batch range
complete → no-op.  Otherwise the batch id is added to the queue, the
loading write happens, then either the image preparation fails (the
`catch` sets the whole range to `error`, no request issued) or
`analyzeMangaPages` is called and its results applied; the `finally`
always deletes the batch id. -/
def processBatch (pagesLen batchIndex : Nat) (o : FetchOutcome) (s : PBState) : PBRun :=
  if batchIndex ∈ s.queue then ⟨s, [], false⟩
  else
    let sp := batchIndex * BATCH_SIZE
    let ep := min (sp + BATCH_SIZE) pagesLen
    if allComplete sp ep s.cache then ⟨s, [], false⟩
    else
      let c1 := setLoading sp ep s.cache
      match o with
      | .prepFailure =>
          let c2 := setError sp ep c1
          ⟨⟨(batchIndex :: s.queue).erase batchIndex, c2⟩, [c1, c2], false⟩
      | .service resp =>
          let results := analyzeMangaPages (ep - sp) resp
          let c2 := applyResults sp results c1
          ⟨⟨(batchIndex :: s.queue).erase batchIndex, c2⟩, [c1, c2], true⟩

/-- The sequence of cache states one `processBatch` call exposes: the
prior cache followed by the cache after each `setAnalysisCache`. -/
def writeTrace (pagesLen batchIndex : Nat) (o : FetchOutcome) (s : PBState) : List OCRCache :=
  s.cache :: (processBatch pagesLen batchIndex o s).writes

/-- `const PREFETCH_DELAY = 500` — the literal `500` passed to
`setTimeout` in the trigger-strategy effect of `Reader.tsx`. -/
def PREFETCH_DELAY_MS : Nat := 500

/-- State of the trigger-strategy effect of `Reader.tsx`: the single
pending `setTimeout` (batch id and delay in ms), or `none`.  React runs
the previous effect's cleanup (`clearTimeout`) before the next effect
body, so the slot holds at most one pending prefetch. -/
structure TriggerState where
  pending : Option (Nat × Nat)
deriving DecidableEq, Repr

/-- One run of the trigger-strategy effect (`Reader.tsx`), preceded by
the cleanup of the previous run (which cancels the pending timer).
Returns the new state and the batch ids requested synchronously: the
effect calls `processBatch(currentBatch)` at once, then schedules
`processBatch(nextBatch)` after `PREFETCH_DELAY_MS` when
`nextBatch * BATCH_SIZE < pagesLen`.  When analysis is disabled the
effect returns before doing anything (the old timer is still cleared
by the cleanup). -/
def effectRun (enabled : Bool) (pagesLen idx : Nat) (_s : TriggerState) :
    TriggerState × List Nat :=
  if !enabled then (⟨none⟩, [])
  else
    let currentBatch := idx / BATCH_SIZE
    let nextBatch := currentBatch + 1
    let pend :=
      if nextBatch * BATCH_SIZE < pagesLen then some (nextBatch, PREFETCH_DELAY_MS)
      else none
    (⟨pend⟩, [currentBatch])

/-- The pending `setTimeout` elapsing: the scheduled batch is requested
and the slot cleared; with no pending timer nothing happens. -/
def timerFire (s : TriggerState) : TriggerState × List Nat :=
  match s.pending with
  | some (b, _) => (⟨none⟩, [b])
  | none => (⟨none⟩, [])

/-- Events the trigger strategy reacts to: the current page changing to
`idx` (an effect re-run), or the debounce timer elapsing. -/
inductive TrigEvent where
  | pageChange (idx : Nat)
  | fire
deriving DecidableEq, Repr

/-- Run a sequence of trigger events (analysis enabled), collecting all
batch requests in the order they are issued. -/
def runTrigger (pagesLen : Nat) (s : TriggerState) : List TrigEvent → TriggerState × List Nat
  | [] => (s, [])
  | e :: es =>
      let step :=
        match e with
        | .pageChange idx => effectRun true pagesLen idx s
        | .fire => timerFire s
      let rest := runTrigger pagesLen step.1 es
      (rest.1, step.2 ++ rest.2)

/-- One utterance handed to `synth.current.speak` by the speech-queue
effect of `Reader.tsx`: its text, its position `i` in the page's bubble
list, and the captured `currentPageData.bubbles.length` that the
`onend`/`onerror` handlers compare `i` against. -/
structure Utterance where
  text : String
  idx : Nat
  total : Nat
deriving DecidableEq, Repr

/-- The loop `currentPageData.bubbles.forEach((bubble, i) =>
synth.speak(new SpeechSynthesisUtterance(bubble.text)))`. -/
def mkUtterances (bl : List SpeechBubble) : List Utterance :=
  bl.enum.map fun p => ⟨p.2.text, p.1, bl.length⟩

/-- State read and written by the speech-queue effect of `Reader.tsx`:
`lastSpokenPageIndexRef`, the utterances currently queued in the
speech engine, `activeBubbleIndex`, and `synth.speaking`. -/
structure SpeechState where
  lastSpokenPageIndex : Option Nat
  queue : List Utterance
  activeBubbleIndex : Option Nat
  speaking : Bool
deriving DecidableEq, Repr

/-- The fresh speech state (nothing spoken, engine idle). -/
def initSpeech : SpeechState := ⟨none, [], none, false⟩

/-- One run of the speech-queue effect (`Reader.tsx`).  Early return if
either toggle is off.  Guard: `lastSpokenPageIndexRef.current ===
currentIndex && synth.speaking` → no-op.  If the displayed page changed,
`synth.cancel()` and `setActiveBubbleIndex(null)`.  If the page's entry
is `'complete'` with a non-empty bubble list, record the page in the
ref and `speak` one utterance per bubble in list order (the engine then
holds them, `speaking` becomes true). -/
def speechEffect (ttsEnabled isAnalysisEnabled : Bool) (cache : OCRCache)
    (currentIndex : Nat) (s : SpeechState) : SpeechState :=
  if !(ttsEnabled && isAnalysisEnabled) then s
  else if s.lastSpokenPageIndex = some currentIndex ∧ s.speaking then s
  else
    let s1 :=
      if s.lastSpokenPageIndex ≠ some currentIndex then
        { s with queue := [], speaking := false, activeBubbleIndex := none }
      else s
    match cache currentIndex with
    | some entry =>
        if entry.status = PageStatus.complete ∧ entry.bubbles.length > 0 then
          { s1 with
              lastSpokenPageIndex := some currentIndex,
              queue := s1.queue ++ mkUtterances entry.bubbles,
              speaking := true }
        else s1
    | none => s1

/-- The speech engine having finished every queued utterance: queue
drained, `synth.speaking` false, and `activeBubbleIndex` cleared by the
last utterance's `onend` handler. -/
def engineFinish (s : SpeechState) : SpeechState :=
  { s with queue := [], speaking := false, activeBubbleIndex := none }

/-- The observable events the speech engine emits while working through
its queue: each utterance's start and its end (`onend`/`onerror`),
tagged with the utterance's `idx` and captured `total`. -/
inductive SpeechEvent where
  | start (i n : Nat)
  | ended (i n : Nat)
deriving DecidableEq, Repr

/-- The handlers attached to each utterance in `Reader.tsx`: `onstart`
does `setActiveBubbleIndex(i)`; `onend` and `onerror` do
`setActiveBubbleIndex(null)` only when `i === bubbles.length - 1`. -/
def applyEvent (a : Option Nat) : SpeechEvent → Option Nat
  | .start i _ => some i
  | .ended i n => if i = n - 1 then none else a

/-- Start/end event pairs for utterances `i, i+1, …` (`fuel` of them),
each carrying the captured total `n`. -/
def uttEventsAux : Nat → Nat → Nat → List SpeechEvent
  | 0, _, _ => []
  | fuel + 1, i, n => .start i n :: .ended i n :: uttEventsAux fuel (i + 1) n

/-- The event sequence of a full sequential engine run over `n`
utterances queued as `mkUtterances` produces them. -/
def engineEvents (n : Nat) : List SpeechEvent := uttEventsAux n 0 n

/-- The events a concrete utterance queue produces when the engine
speaks it front to back, non-overlapping. -/
def eventsOfQueue (q : List Utterance) : List SpeechEvent :=
  q.flatMap fun u => [.start u.idx u.total, .ended u.idx u.total]

/-! ## Helper lemmas -/

theorem statusIsComplete_iff (e : Option PageAnalysis) :
    statusIsComplete e = true ↔ e.map PageAnalysis.status = some PageStatus.complete := by
  cases e with
  | none => simp [statusIsComplete]
  | some a => simp [statusIsComplete]

theorem statusIsComplete_false_iff (e : Option PageAnalysis) :
    statusIsComplete e = false ↔ e.map PageAnalysis.status ≠ some PageStatus.complete := by
  rw [← Bool.not_eq_true, not_iff_not]
  exact statusIsComplete_iff e

theorem allComplete_eq_false {sp ep i : Nat} {c : OCRCache} (hsp : sp ≤ i) (hie : i < ep)
    (h : statusOf c i ≠ some PageStatus.complete) : allComplete sp ep c = false := by
  apply List.all_eq_false.mpr
  refine ⟨i, ?_, ?_⟩
  · rw [List.mem_range'_1]
    omega
  · simp only [Bool.not_eq_true, statusIsComplete_false_iff]
    exact h

theorem analyzeMangaPages_of_isFailure {resp : ServiceResponse} (n : Nat)
    (h : resp.isFailure = true) : analyzeMangaPages n resp = List.replicate n [] := by
  cases resp <;> first | rfl | simp [ServiceResponse.isFailure] at h

theorem getD_replicate_nil (n k : Nat) :
    (List.replicate n ([] : List SpeechBubble)).getD k [] = [] := by
  induction n generalizing k with
  | zero => simp
  | succ m ih =>
      cases k with
      | zero => simp [List.replicate]
      | succ j => simp only [List.replicate, List.getD_cons_succ]; exact ih j

theorem setLoading_of_in_range {sp ep i : Nat} {c : OCRCache} (h1 : sp ≤ i) (h2 : i < ep)
    (hc : statusOf c i ≠ some PageStatus.complete) :
    setLoading sp ep c i = some ⟨[], PageStatus.loading⟩ := by
  unfold setLoading
  rw [if_pos ⟨h1, h2, (statusIsComplete_false_iff (c i)).mpr hc⟩]

theorem setLoading_of_complete (sp ep : Nat) {i : Nat} {c : OCRCache}
    (hc : statusOf c i = some PageStatus.complete) : setLoading sp ep c i = c i := by
  unfold setLoading
  rw [if_neg]
  intro hcond
  rw [statusIsComplete_false_iff] at hcond
  exact hcond.2.2 hc

theorem setLoading_status_cases (sp ep i : Nat) (c : OCRCache) :
    statusOf (setLoading sp ep c) i = some PageStatus.loading ∨
      statusOf (setLoading sp ep c) i = statusOf c i := by
  simp only [setLoading, statusOf]
  split
  · left; rfl
  · right; rfl

theorem setError_status_cases (sp ep i : Nat) (c : OCRCache) :
    statusOf (setError sp ep c) i = some PageStatus.error ∨
      statusOf (setError sp ep c) i = statusOf c i := by
  simp only [setError, statusOf]
  split
  · left; rfl
  · right; rfl

theorem applyResults_of_lt {sp i : Nat} {results : List (List SpeechBubble)} (c : OCRCache)
    (h1 : sp ≤ i) (h2 : i - sp < results.length) :
    applyResults sp results c i =
      some ⟨sortBubbles (results.getD (i - sp) []), PageStatus.complete⟩ := by
  unfold applyResults
  rw [if_pos ⟨h1, h2⟩]

theorem applyResults_of_ge {sp i : Nat} {results : List (List SpeechBubble)} (c : OCRCache)
    (h : results.length ≤ i - sp) : applyResults sp results c i = c i := by
  unfold applyResults
  rw [if_neg]
  intro hcond
  omega

theorem applyResults_status_cases (sp : Nat) (results : List (List SpeechBubble))
    (c : OCRCache) (i : Nat) :
    statusOf (applyResults sp results c) i = some PageStatus.complete ∨
      statusOf (applyResults sp results c) i = statusOf c i := by
  simp only [applyResults, statusOf]
  split
  · left; rfl
  · right; rfl

theorem processBatch_noop_mem {pagesLen b : Nat} {o : FetchOutcome} {s : PBState}
    (h : b ∈ s.queue) : processBatch pagesLen b o s = ⟨s, [], false⟩ := by
  unfold processBatch
  rw [if_pos h]

theorem processBatch_noop_allComplete {pagesLen b : Nat} {o : FetchOutcome} {s : PBState}
    (h : b ∉ s.queue)
    (hall : allComplete (b * BATCH_SIZE) (min (b * BATCH_SIZE + BATCH_SIZE) pagesLen) s.cache
      = true) : processBatch pagesLen b o s = ⟨s, [], false⟩ := by
  unfold processBatch
  rw [if_neg h, if_pos hall]

theorem processBatch_service {pagesLen b : Nat} {resp : ServiceResponse} {s : PBState}
    (h : b ∉ s.queue)
    (hall : allComplete (b * BATCH_SIZE) (min (b * BATCH_SIZE + BATCH_SIZE) pagesLen) s.cache
      = false) :
    processBatch pagesLen b (.service resp) s =
      ⟨⟨s.queue,
        applyResults (b * BATCH_SIZE)
          (analyzeMangaPages (min (b * BATCH_SIZE + BATCH_SIZE) pagesLen - b * BATCH_SIZE) resp)
          (setLoading (b * BATCH_SIZE) (min (b * BATCH_SIZE + BATCH_SIZE) pagesLen) s.cache)⟩,
       [setLoading (b * BATCH_SIZE) (min (b * BATCH_SIZE + BATCH_SIZE) pagesLen) s.cache,
        applyResults (b * BATCH_SIZE)
          (analyzeMangaPages (min (b * BATCH_SIZE + BATCH_SIZE) pagesLen - b * BATCH_SIZE) resp)
          (setLoading (b * BATCH_SIZE) (min (b * BATCH_SIZE + BATCH_SIZE) pagesLen) s.cache)],
       true⟩ := by
  unfold processBatch
  rw [if_neg h, if_neg (by rw [hall]; exact Bool.false_ne_true)]
  simp [List.erase_cons_head]

theorem processBatch_prep {pagesLen b : Nat} {s : PBState}
    (h : b ∉ s.queue)
    (hall : allComplete (b * BATCH_SIZE) (min (b * BATCH_SIZE + BATCH_SIZE) pagesLen) s.cache
      = false) :
    processBatch pagesLen b .prepFailure s =
      ⟨⟨s.queue,
        setError (b * BATCH_SIZE) (min (b * BATCH_SIZE + BATCH_SIZE) pagesLen)
          (setLoading (b * BATCH_SIZE) (min (b * BATCH_SIZE + BATCH_SIZE) pagesLen) s.cache)⟩,
       [setLoading (b * BATCH_SIZE) (min (b * BATCH_SIZE + BATCH_SIZE) pagesLen) s.cache,
        setError (b * BATCH_SIZE) (min (b * BATCH_SIZE + BATCH_SIZE) pagesLen)
          (setLoading (b * BATCH_SIZE) (min (b * BATCH_SIZE + BATCH_SIZE) pagesLen) s.cache)],
       false⟩ := by
  unfold processBatch
  rw [if_neg h, if_neg (by rw [hall]; exact Bool.false_ne_true)]
  simp [List.erase_cons_head]

theorem bubbleCmp_antisymm (a b : SpeechBubble) : bubbleCmp b a = -bubbleCmp a b := by
  simp only [bubbleCmp]
  split_ifs <;> omega

theorem insertBubble_cons (x y : SpeechBubble) (ys : List SpeechBubble) :
    insertBubble x (y :: ys)
      = if bubbleCmp x y < 0 then x :: y :: ys else y :: insertBubble x ys := rfl

theorem insertBubble_perm (x : SpeechBubble) (l : List SpeechBubble) :
    (insertBubble x l).Perm (x :: l) := by
  induction l with
  | nil => exact List.Perm.refl _
  | cons y ys ih =>
      unfold insertBubble
      split
      · exact List.Perm.refl _
      · exact (ih.cons y).trans (List.Perm.swap x y ys)

theorem sortBubbles_perm_aux (l acc : List SpeechBubble) :
    (l.foldl (fun a x => insertBubble x a) acc).Perm (acc ++ l) := by
  induction l generalizing acc with
  | nil => simp
  | cons x xs ih =>
      simp only [List.foldl_cons]
      refine (ih (insertBubble x acc)).trans ?_
      refine (((insertBubble_perm x acc).append_right xs).trans ?_)
      exact List.perm_middle.symm

theorem sortBubbles_perm (l : List SpeechBubble) : (sortBubbles l).Perm l := by
  have h := sortBubbles_perm_aux l []
  simpa [sortBubbles] using h

theorem chain'_insertBubble (x : SpeechBubble) (l : List SpeechBubble)
    (h : List.Chain' (fun u v => bubbleCmp u v ≤ 0) l) :
    List.Chain' (fun u v => bubbleCmp u v ≤ 0) (insertBubble x l) := by
  induction l with
  | nil => simp [insertBubble]
  | cons y ys ih =>
      have hys : List.Chain' (fun u v => bubbleCmp u v ≤ 0) ys := h.tail
      rw [insertBubble_cons]
      by_cases hxy : bubbleCmp x y < 0
      · rw [if_pos hxy]
        exact List.chain'_cons.mpr ⟨le_of_lt hxy, h⟩
      · rw [if_neg hxy]
        have hyx : bubbleCmp y x ≤ 0 := by
          have hanti := bubbleCmp_antisymm x y
          omega
        have hins := ih hys
        cases ys with
        | nil =>
            simp only [insertBubble]
            exact List.chain'_cons.mpr ⟨hyx, List.chain'_singleton x⟩
        | cons z zs =>
            have hyz : bubbleCmp y z ≤ 0 := (List.chain'_cons.mp h).1
            by_cases hxz : bubbleCmp x z < 0
            · rw [insertBubble_cons, if_pos hxz] at hins ⊢
              exact List.chain'_cons.mpr ⟨hyx, hins⟩
            · rw [insertBubble_cons, if_neg hxz] at hins ⊢
              exact List.chain'_cons.mpr ⟨hyz, hins⟩

theorem chain'_sortBubbles_aux (l acc : List SpeechBubble)
    (h : List.Chain' (fun u v => bubbleCmp u v ≤ 0) acc) :
    List.Chain' (fun u v => bubbleCmp u v ≤ 0)
      (l.foldl (fun a x => insertBubble x a) acc) := by
  induction l generalizing acc with
  | nil => exact h
  | cons x xs ih =>
      simp only [List.foldl_cons]
      exact ih _ (chain'_insertBubble x acc h)

theorem chain'_sortBubbles (l : List SpeechBubble) :
    List.Chain' (fun u v => bubbleCmp u v ≤ 0) (sortBubbles l) :=
  chain'_sortBubbles_aux l [] List.chain'_nil

theorem getD_cons_cons_add_two (x y : Option Nat) (l : List (Option Nat)) (m : Nat) :
    (x :: y :: l).getD (m + 2) none = l.getD m none := rfl

theorem uttEvents_scanl_start :
    ∀ (fuel i n : Nat) (a : Option Nat) (k : Nat), i ≤ k → k < i + fuel →
      ((uttEventsAux fuel i n).scanl applyEvent a).getD (2 * (k - i) + 1) none = some k := by
  intro fuel
  induction fuel with
  | zero => intro i n a k h1 h2; omega
  | succ m ih =>
      intro i n a k h1 h2
      by_cases hk : k = i
      · subst hk
        rw [show 2 * (k - k) + 1 = 1 from by omega]
        simp [uttEventsAux, List.scanl, applyEvent]
      · have hk' : i + 1 ≤ k := by omega
        simp only [uttEventsAux, List.scanl]
        rw [show 2 * (k - i) + 1 = (2 * (k - (i + 1)) + 1) + 2 from by omega,
          getD_cons_cons_add_two]
        exact ih (i + 1) n _ k hk' (by omega)

theorem uttEvents_scanl_last :
    ∀ (fuel i n : Nat) (a : Option Nat), i + fuel = n →
      ((uttEventsAux fuel i n).scanl applyEvent a).getD (2 * fuel) none
        = if fuel = 0 then a else none := by
  intro fuel
  induction fuel with
  | zero => intro i n a h; simp [uttEventsAux, List.scanl]
  | succ m ih =>
      intro i n a h
      simp only [uttEventsAux, List.scanl]
      rw [show 2 * (m + 1) = 2 * m + 2 from by omega, getD_cons_cons_add_two,
        ih (i + 1) n _ (by omega)]
      by_cases hm : m = 0
      · subst hm
        simp [applyEvent, show i = n - 1 from by omega]
      · simp [hm]

theorem scanl_getD_zero (a : Option Nat) (l : List SpeechEvent) :
    (l.scanl applyEvent a).getD 0 none = a := by
  cases l <;> simp [List.scanl]

theorem eventsOfQueue_enumFrom (n : Nat) :
    ∀ (bl : List SpeechBubble) (i : Nat),
      eventsOfQueue ((List.enumFrom i bl).map fun p => ⟨p.2.text, p.1, n⟩)
        = uttEventsAux bl.length i n := by
  intro bl
  induction bl with
  | nil => intro i; rfl
  | cons b bs ih =>
      intro i
      simp only [List.enumFrom, List.map_cons, eventsOfQueue, List.flatMap_cons,
        List.length_cons, uttEventsAux]
      rw [← ih (i + 1)]
      rfl

theorem eventsOfQueue_mkUtterances (bl : List SpeechBubble) :
    eventsOfQueue (mkUtterances bl) = engineEvents bl.length := by
  unfold mkUtterances engineEvents List.enum
  exact eventsOfQueue_enumFrom bl.length bl 0

theorem mkUtterances_map_text_aux (n : Nat) :
    ∀ (bl : List SpeechBubble) (i : Nat),
      (((List.enumFrom i bl).map fun p => (⟨p.2.text, p.1, n⟩ : Utterance)).map
        Utterance.text) = bl.map SpeechBubble.text := by
  intro bl
  induction bl with
  | nil => intro i; rfl
  | cons b bs ih =>
      intro i
      simp only [List.enumFrom, List.map_cons, List.map_cons]
      rw [ih (i + 1)]

theorem mkUtterances_map_text (bl : List SpeechBubble) :
    (mkUtterances bl).map Utterance.text = bl.map SpeechBubble.text := by
  unfold mkUtterances List.enum
  exact mkUtterances_map_text_aux bl.length bl 0

theorem mkUtterances_length (bl : List SpeechBubble) :
    (mkUtterances bl).length = bl.length := by
  unfold mkUtterances
  rw [List.length_map, List.enum_length]

/-! ## Concrete fixtures

The three bubbles of the spec's sort example: `ymin` values
`[100, 120, 500]` and `xmin` values `[300, 10, 50]` (with arbitrary
valid `ymax`/`xmax`), plus a bubble with malformed geometry
(`ymin > ymax`) and a few concrete cache states. -/

def bubbleA : SpeechBubble := ⟨"a", 100, 300, 200, 400⟩

def bubbleB : SpeechBubble := ⟨"b", 120, 10, 220, 110⟩

def bubbleC : SpeechBubble := ⟨"c", 500, 50, 600, 150⟩

/-- A bubble violating the box invariant: `ymin = 600 > ymax = 400`. -/
def badBubble : SpeechBubble := ⟨"bad", 600, 300, 400, 500⟩

/-- A cache whose page 0 is already complete with one bubble. -/
def completeCache : OCRCache :=
  fun i => if i = 0 then some ⟨[bubbleA], PageStatus.complete⟩ else none

/-- A cache whose page 0 is complete with the three example bubbles. -/
def threeBubbleCache : OCRCache :=
  fun i =>
    if i = 0 then some ⟨[bubbleA, bubbleB, bubbleC], PageStatus.complete⟩ else none

/-- A speech state mid-sequence on page 0 (`synth.speaking` true). -/
def busySpeech : SpeechState := ⟨some 0, mkUtterances [bubbleA], some 0, true⟩

/-- A cache whose only entry is page 4 with status `error`. -/
def errorCache4 : OCRCache :=
  fun i => if i = 4 then some ⟨[], PageStatus.error⟩ else none

/-! ## Claims -/

/-- C1, counterexample: the claim says the status never transitions
`complete → error`, but it does: page 0 of a two-page document is
`complete`; `processBatch 0` runs again because page 1 is not complete,
image preparation fails, and the `catch` write sets the whole range —
page 0 included — to `error`. -/
theorem C1_counterexample :
    statusOf completeCache 0 = some PageStatus.complete ∧
    statusOf (processBatch 2 0 .prepFailure ⟨[], completeCache⟩).state.cache 0
      = some PageStatus.error := by
  decide

/-- C1, amended: the only transition the code really rules out is
`complete → loading` — across every `setAnalysisCache` write of any
`processBatch` call, a page whose status is `complete` never becomes
`loading` (the loading write skips complete pages and the other writes
produce only `complete` or `error`).  Every other deviation from the
claimed transition diagram occurs: `complete → error` on the failure
path (the counterexample), and — because the success write indexes
`startPage + relativeIndex` over the *result* list with no range bound
while the loading write covers only `[startPage, endPage)` — a parsed
response longer than the batch drives a page beyond the batch range
directly from `pending` to `complete`, and directly from `error` to
`complete`, skipping `loading`: with a 10-page document, batch 0 and a
6-element response, page 4 is still `pending` (resp. `error`) after the
loading write and `complete` after the success write. -/
theorem C1_amended_theorem :
    (∀ (pagesLen b : Nat) (o : FetchOutcome) (s : PBState) (j i : Nat),
      statusOf ((writeTrace pagesLen b o s).getD j emptyCache) i
          = some PageStatus.complete →
      statusOf ((writeTrace pagesLen b o s).getD (j + 1) emptyCache) i
          ≠ some PageStatus.loading) ∧
    (statusOf ((writeTrace 10 0 (.service (.parsedArray (List.replicate 6 (some []))))
        ⟨[], emptyCache⟩).getD 1 emptyCache) 4 = none ∧
      statusOf ((writeTrace 10 0 (.service (.parsedArray (List.replicate 6 (some []))))
        ⟨[], emptyCache⟩).getD 2 emptyCache) 4 = some PageStatus.complete) ∧
    (statusOf ((writeTrace 10 0 (.service (.parsedArray (List.replicate 6 (some []))))
        ⟨[], errorCache4⟩).getD 1 emptyCache) 4 = some PageStatus.error ∧
      statusOf ((writeTrace 10 0 (.service (.parsedArray (List.replicate 6 (some []))))
        ⟨[], errorCache4⟩).getD 2 emptyCache) 4 = some PageStatus.complete) := by
  refine ⟨?_, by decide, by decide⟩
  intro pagesLen b o s j i hc
  unfold writeTrace at hc ⊢
  by_cases hmem : b ∈ s.queue
  · rw [processBatch_noop_mem hmem] at hc ⊢
    cases j with
    | zero => simp [statusOf, emptyCache]
    | succ j' => simp [statusOf, emptyCache]
  · by_cases hall : allComplete (b * BATCH_SIZE) (min (b * BATCH_SIZE + BATCH_SIZE) pagesLen)
        s.cache = true
    · rw [processBatch_noop_allComplete hmem hall] at hc ⊢
      cases j with
      | zero => simp [statusOf, emptyCache]
      | succ j' => simp [statusOf, emptyCache]
    · have hall' : allComplete (b * BATCH_SIZE) (min (b * BATCH_SIZE + BATCH_SIZE) pagesLen)
          s.cache = false := Bool.eq_false_iff.mpr hall
      cases o with
      | prepFailure =>
          rw [processBatch_prep hmem hall'] at hc ⊢
          cases j with
          | zero =>
              simp only [List.getD_cons_zero] at hc
              simp only [List.getD_cons_succ, List.getD_cons_zero]
              have hkeep := setLoading_of_complete (b * BATCH_SIZE)
                (min (b * BATCH_SIZE + BATCH_SIZE) pagesLen) hc
              simp only [statusOf] at hc ⊢
              rw [hkeep, hc]
              simp
          | succ j' =>
              cases j' with
              | zero =>
                  simp only [List.getD_cons_succ, List.getD_cons_zero] at hc ⊢
                  rcases setError_status_cases (b * BATCH_SIZE)
                      (min (b * BATCH_SIZE + BATCH_SIZE) pagesLen) i
                      (setLoading (b * BATCH_SIZE) (min (b * BATCH_SIZE + BATCH_SIZE) pagesLen)
                        s.cache) with h | h
                  · rw [h]; simp
                  · rw [h, hc]; simp
              | succ j'' => simp [statusOf, emptyCache]
      | service resp =>
          rw [processBatch_service hmem hall'] at hc ⊢
          cases j with
          | zero =>
              simp only [List.getD_cons_zero] at hc
              simp only [List.getD_cons_succ, List.getD_cons_zero]
              have hkeep := setLoading_of_complete (b * BATCH_SIZE)
                (min (b * BATCH_SIZE + BATCH_SIZE) pagesLen) hc
              simp only [statusOf] at hc ⊢
              rw [hkeep, hc]
              simp
          | succ j' =>
              cases j' with
              | zero =>
                  simp only [List.getD_cons_succ, List.getD_cons_zero] at hc ⊢
                  rcases applyResults_status_cases (b * BATCH_SIZE)
                      (analyzeMangaPages
                        (min (b * BATCH_SIZE + BATCH_SIZE) pagesLen - b * BATCH_SIZE) resp)
                      (setLoading (b * BATCH_SIZE) (min (b * BATCH_SIZE + BATCH_SIZE) pagesLen)
                        s.cache) i with h | h
                  · rw [h]; simp
                  · rw [h, hc]; simp
              | succ j'' => simp [statusOf, emptyCache]

/-- C1, witness for the amended theorem at a concrete input: page 0 of
`completeCache` is complete before the failure write and is not
`loading` after it. -/
theorem C1_amended_witness :
    statusOf ((writeTrace 2 0 .prepFailure ⟨[], completeCache⟩).getD 1 emptyCache) 0
      ≠ some PageStatus.loading :=
  C1_amended_theorem.1 2 0 .prepFailure ⟨[], completeCache⟩ 0 0 (by decide)

/-- C2, counterexample: the claim says a failing external analysis
request leaves every non-complete page of the batch with status
`error`; in the code `analyzeMangaPages` swallows the service error and
returns empty bubble lists, so `processBatch` takes its success path
and the page ends `complete`, not `error`. -/
theorem C2_counterexample :
    statusOf (processBatch 1 0 (.service .throwsError) ⟨[], emptyCache⟩).state.cache 0
      ≠ some PageStatus.error ∧
    statusOf (processBatch 1 0 (.service .throwsError) ⟨[], emptyCache⟩).state.cache 0
      = some PageStatus.complete := by
  decide

/-- C2, amended: for every batch whose external analysis request fails
(service error, empty response text, unparseable payload, or a
non-array payload), every page in the batch's range that is not
already complete ends with status `complete` and an *empty* bubble
list; the failure is swallowed inside `analyzeMangaPages` and nothing
is raised to the caller of `processBatch` (the model is a total
function). -/
theorem C2_amended_theorem (pagesLen b : Nat) (resp : ServiceResponse) (s : PBState) (i : Nat)
    (hq : b ∉ s.queue) (hfail : resp.isFailure = true)
    (h1 : b * BATCH_SIZE ≤ i) (h2 : i < min (b * BATCH_SIZE + BATCH_SIZE) pagesLen)
    (hnc : statusOf s.cache i ≠ some PageStatus.complete) :
    (processBatch pagesLen b (.service resp) s).state.cache i
      = some ⟨[], PageStatus.complete⟩ := by
  have hall := allComplete_eq_false h1 h2 hnc
  have hrepl := analyzeMangaPages_of_isFailure
    (min (b * BATCH_SIZE + BATCH_SIZE) pagesLen - b * BATCH_SIZE) hfail
  have hlen : i - b * BATCH_SIZE <
      (analyzeMangaPages (min (b * BATCH_SIZE + BATCH_SIZE) pagesLen - b * BATCH_SIZE)
        resp).length := by
    rw [hrepl, List.length_replicate]
    omega
  rw [processBatch_service hq hall]
  dsimp only
  rw [applyResults_of_lt _ h1 hlen, hrepl, getD_replicate_nil]
  rfl

/-- C2, witness: a one-page batch against a throwing service ends
complete with no bubbles. -/
theorem C2_amended_witness :
    (processBatch 1 0 (.service .throwsError) ⟨[], emptyCache⟩).state.cache 0
      = some ⟨[], PageStatus.complete⟩ :=
  C2_amended_theorem 1 0 .throwsError ⟨[], emptyCache⟩ 0 (by decide) (by decide) (by decide)
    (by decide) (by decide)

/-- C3, counterexample: the claim says a response list shorter than the
batch marks every page of the batch `error`; in the code the uncovered
page simply keeps the `loading` status set before the request. -/
theorem C3_counterexample :
    statusOf (processBatch 2 0 (.service (.parsedArray [some []])) ⟨[], emptyCache⟩).state.cache 1
      ≠ some PageStatus.error ∧
    statusOf (processBatch 2 0 (.service (.parsedArray [some []])) ⟨[], emptyCache⟩).state.cache 1
      = some PageStatus.loading := by
  decide

/-- C3, amended: a parsed response list whose length differs from the
request is *not* treated as a failure: each page with a result (the
first `ps.length` positions from the batch start) is marked `complete`,
and every in-range page beyond the response length that was not
already complete keeps status `loading`; no page is set to `error`. -/
theorem C3_amended_theorem (pagesLen b : Nat) (ps : List (Option (List SpeechBubble)))
    (s : PBState) (hq : b ∉ s.queue)
    (hall : allComplete (b * BATCH_SIZE) (min (b * BATCH_SIZE + BATCH_SIZE) pagesLen) s.cache
      = false) :
    (∀ i, b * BATCH_SIZE ≤ i → i - b * BATCH_SIZE < ps.length →
      statusOf (processBatch pagesLen b (.service (.parsedArray ps)) s).state.cache i
        = some PageStatus.complete) ∧
    (∀ i, b * BATCH_SIZE + ps.length ≤ i → i < min (b * BATCH_SIZE + BATCH_SIZE) pagesLen →
      statusOf s.cache i ≠ some PageStatus.complete →
      statusOf (processBatch pagesLen b (.service (.parsedArray ps)) s).state.cache i
        = some PageStatus.loading) := by
  rw [processBatch_service hq hall]
  have hlenA :
      (analyzeMangaPages (min (b * BATCH_SIZE + BATCH_SIZE) pagesLen - b * BATCH_SIZE)
        (.parsedArray ps)).length = ps.length := by
    simp [analyzeMangaPages]
  constructor
  · intro i hsp hlen
    simp only [statusOf]
    rw [applyResults_of_lt _ hsp (by rw [hlenA]; exact hlen)]
    rfl
  · intro i hge hlt hnc
    simp only [statusOf]
    rw [applyResults_of_ge _ (by rw [hlenA]; omega),
      setLoading_of_in_range (by omega) hlt hnc]
    rfl

/-- C3, witness: a two-page batch with a one-element response leaves
page 0 complete and page 1 loading. -/
theorem C3_amended_witness :
    statusOf (processBatch 2 0 (.service (.parsedArray [some []])) ⟨[], emptyCache⟩).state.cache 0
      = some PageStatus.complete ∧
    statusOf (processBatch 2 0 (.service (.parsedArray [some []])) ⟨[], emptyCache⟩).state.cache 1
      = some PageStatus.loading := by
  have h := C3_amended_theorem 2 0 [some []] ⟨[], emptyCache⟩ (by decide) (by decide)
  exact ⟨h.1 0 (by decide) (by decide), h.2 1 (by decide) (by decide) (by decide)⟩

/-- C4: `processBatch` deduplicates and self-releases.  A call while
the batch id is in the in-flight set changes nothing — no cache write
and no external request — and a call that does run never leaves its
batch id in the in-flight set when it returns (the `finally` delete). -/
theorem C4_theorem (pagesLen b : Nat) (o : FetchOutcome) (s : PBState) :
    (b ∈ s.queue → processBatch pagesLen b o s = ⟨s, [], false⟩) ∧
    (b ∉ s.queue → b ∉ (processBatch pagesLen b o s).state.queue) := by
  constructor
  · exact processBatch_noop_mem
  · intro hq
    by_cases hall : allComplete (b * BATCH_SIZE) (min (b * BATCH_SIZE + BATCH_SIZE) pagesLen)
        s.cache = true
    · rw [processBatch_noop_allComplete hq hall]
      exact hq
    · have hall' := Bool.eq_false_iff.mpr hall
      cases o with
      | prepFailure => rw [processBatch_prep hq hall']; exact hq
      | service resp => rw [processBatch_service hq hall']; exact hq

/-- C4, witness: a call with batch 0 in flight is the identity with no
request, and a fresh call releases batch 0 before returning. -/
theorem C4_witness :
    processBatch 4 0 .prepFailure ⟨[0], emptyCache⟩ = ⟨⟨[0], emptyCache⟩, [], false⟩ ∧
    0 ∉ (processBatch 4 0 (.service .nonArray) ⟨[], emptyCache⟩).state.queue :=
  ⟨(C4_theorem 4 0 .prepFailure ⟨[0], emptyCache⟩).1 (by decide),
   (C4_theorem 4 0 (.service .nonArray) ⟨[], emptyCache⟩).2 (by decide)⟩

theorem map_getD_bubbles (ps : List (Option (List SpeechBubble))) (k : Nat) :
    (ps.map (fun o => o.getD [])).getD k [] = (ps.getD k none).getD [] := by
  induction ps generalizing k with
  | nil => simp
  | cons p pt ih =>
      cases k with
      | zero => rfl
      | succ m =>
          simp only [List.map_cons, List.getD_cons_succ]
          exact ih m

/-- C5, counterexample: the claim says a bubble whose box violates the
invariants is discarded from the stored list; the code performs no
geometry validation, so `badBubble` (with `ymin > ymax`) is stored. -/
theorem C5_counterexample :
    (processBatch 1 0 (.service (.parsedArray [some [badBubble]]))
        ⟨[], emptyCache⟩).state.cache 0
      = some ⟨[badBubble], PageStatus.complete⟩ ∧
    ¬ badBubble.ymin < badBubble.ymax := by
  decide

/-- C5, amended: no bubble is ever discarded.  Each page with a result
stores the sorted version of exactly the bubbles the response carried —
a permutation of the raw list, whether or not their boxes satisfy the
invariants — and the page's entry becomes `complete`. -/
theorem C5_amended_theorem (pagesLen b : Nat) (ps : List (Option (List SpeechBubble)))
    (s : PBState) (i : Nat) (hq : b ∉ s.queue)
    (hall : allComplete (b * BATCH_SIZE) (min (b * BATCH_SIZE + BATCH_SIZE) pagesLen) s.cache
      = false)
    (hsp : b * BATCH_SIZE ≤ i) (hlen : i - b * BATCH_SIZE < ps.length) :
    (processBatch pagesLen b (.service (.parsedArray ps)) s).state.cache i
      = some ⟨sortBubbles ((ps.getD (i - b * BATCH_SIZE) none).getD []),
          PageStatus.complete⟩ ∧
    (sortBubbles ((ps.getD (i - b * BATCH_SIZE) none).getD [])).Perm
      ((ps.getD (i - b * BATCH_SIZE) none).getD []) := by
  constructor
  · rw [processBatch_service hq hall]
    dsimp only
    rw [applyResults_of_lt _ hsp (by simp [analyzeMangaPages]; omega)]
    rw [show analyzeMangaPages (min (b * BATCH_SIZE + BATCH_SIZE) pagesLen - b * BATCH_SIZE)
        (.parsedArray ps) = ps.map (fun o => o.getD []) from rfl]
    rw [map_getD_bubbles]
  · exact sortBubbles_perm _

/-- C5, witness: the malformed bubble's page is stored complete with
the bubble kept, and the stored list is a permutation of the raw one. -/
theorem C5_amended_witness :
    (processBatch 1 0 (.service (.parsedArray [some [badBubble]]))
        ⟨[], emptyCache⟩).state.cache 0
      = some ⟨sortBubbles (([some [badBubble]].getD 0 none).getD []),
          PageStatus.complete⟩ ∧
    (sortBubbles (([some [badBubble]].getD 0 none).getD [])).Perm
      (([some [badBubble]].getD 0 none).getD []) :=
  C5_amended_theorem 1 0 [some [badBubble]] ⟨[], emptyCache⟩ 0 (by decide) (by decide)
    (by decide) (by decide)

/-- C6: the stored bubble order.  A successful batch carrying the
spec's three example bubbles (`ymin` 100/120/500, `xmin` 300/10/50,
presented out of order) stores them as `[bubbleA, bubbleB, bubbleC]` —
ymin 100 / xmin 300 first, then ymin 120 / xmin 10 (same visual row,
descending xmin), then ymin 500 / xmin 50; the spec's listed input
order is a fixed point of the sort; and in general the sort permutes
its input and orders adjacent bubbles by the comparator (ascending
`ymin` except that rows within 50 tie-break by descending `xmin`). -/
theorem C6_theorem :
    (processBatch 1 0 (.service (.parsedArray [some [bubbleC, bubbleA, bubbleB]]))
        ⟨[], emptyCache⟩).state.cache 0
      = some ⟨[bubbleA, bubbleB, bubbleC], PageStatus.complete⟩ ∧
    sortBubbles [bubbleA, bubbleB, bubbleC] = [bubbleA, bubbleB, bubbleC] ∧
    (∀ l : List SpeechBubble, (sortBubbles l).Perm l) ∧
    (∀ l : List SpeechBubble, List.Chain' (fun u v => bubbleCmp u v ≤ 0) (sortBubbles l)) :=
  ⟨by decide, by decide, sortBubbles_perm, chain'_sortBubbles⟩

/-- C7: the trigger strategy.  On every page change the effect
synchronously requests exactly the current page's batch and schedules
only the next batch, with the fixed 500 ms delay, in the single timer
slot (cancelling whatever was pending); the spec's concrete scenarios:
on pages 0..7 visiting page 2 requests batch 0 at once and batch 1
when the timer fires; navigating to page 5 before the timer fires
yields exactly the requests [0, 1] (batch 1 once, no stale prefetch);
and on a 16-page document navigating 0 → 8 before the timer fires
means batch 1 — scheduled while on page 0 — is never requested. -/
theorem C7_theorem :
    (∀ (pagesLen idx : Nat) (s : TriggerState),
      (effectRun true pagesLen idx s).2 = [idx / BATCH_SIZE]) ∧
    (∀ (pagesLen idx : Nat) (s : TriggerState),
      (effectRun true pagesLen idx s).1.pending
        = if (idx / BATCH_SIZE + 1) * BATCH_SIZE < pagesLen
          then some (idx / BATCH_SIZE + 1, PREFETCH_DELAY_MS) else none) ∧
    (runTrigger 8 ⟨none⟩ [.pageChange 2, .fire]).2 = [0, 1] ∧
    (runTrigger 8 ⟨none⟩ [.pageChange 2, .pageChange 5]).2 = [0, 1] ∧
    (runTrigger 8 ⟨none⟩ [.pageChange 2, .pageChange 5]).1.pending = none ∧
    (runTrigger 16 ⟨none⟩ [.pageChange 0, .pageChange 8, .fire]).2 = [0, 2, 3] := by
  refine ⟨?_, ?_, by decide, by decide, by decide, by decide⟩
  · intro pagesLen idx s
    rfl
  · intro pagesLen idx s
    rfl

theorem speechEffect_fresh_complete (cache : OCRCache) (p : Nat) (bl : List SpeechBubble)
    (s : SpeechState) (hentry : cache p = some ⟨bl, PageStatus.complete⟩) (hne : bl ≠ [])
    (hfresh : s.lastSpokenPageIndex ≠ some p) :
    speechEffect true true cache p s =
      ⟨some p, mkUtterances bl, none, true⟩ := by
  unfold speechEffect
  rw [if_neg (by simp)]
  rw [if_neg (fun hcon => hfresh hcon.1)]
  rw [if_pos hfresh]
  rw [hentry]
  dsimp only
  rw [if_pos ⟨rfl, List.length_pos.mpr hne⟩]
  simp

/-- C8: enabling speech on a page whose entry is complete with bubble
list `bl` (non-empty, fresh visit) queues exactly one utterance per
bubble, in the stored order and with the stored texts, with
`activeBubbleIndex` null before the engine starts; and the sequential
engine run over that queue — each utterance's end preceding the next
one's start — drives `activeBubbleIndex` through `null` initially,
`some k` while the k-th utterance is speaking, and `null` again after
the last utterance ends. -/
theorem C8_theorem (cache : OCRCache) (p : Nat) (bl : List SpeechBubble) (s : SpeechState)
    (hentry : cache p = some ⟨bl, PageStatus.complete⟩) (hne : bl ≠ [])
    (hfresh : s.lastSpokenPageIndex ≠ some p) :
    (speechEffect true true cache p s).queue = mkUtterances bl ∧
    (speechEffect true true cache p s).activeBubbleIndex = none ∧
    (mkUtterances bl).length = bl.length ∧
    (mkUtterances bl).map Utterance.text = bl.map SpeechBubble.text ∧
    eventsOfQueue (mkUtterances bl) = engineEvents bl.length ∧
    ((engineEvents bl.length).scanl applyEvent none).getD 0 none = none ∧
    (∀ k, k < bl.length →
      ((engineEvents bl.length).scanl applyEvent none).getD (2 * k + 1) none = some k) ∧
    ((engineEvents bl.length).scanl applyEvent none).getD (2 * bl.length) none = none := by
  have heff := speechEffect_fresh_complete cache p bl s hentry hne hfresh
  refine ⟨by rw [heff], by rw [heff], mkUtterances_length bl, mkUtterances_map_text bl,
    eventsOfQueue_mkUtterances bl, scanl_getD_zero none _, ?_, ?_⟩
  · intro k hk
    have h := uttEvents_scanl_start bl.length 0 bl.length none k (Nat.zero_le k)
      (by omega)
    rw [show 2 * (k - 0) + 1 = 2 * k + 1 from by omega] at h
    exact h
  · have h := uttEvents_scanl_last bl.length 0 bl.length none (by omega)
    rw [if_neg (fun h0 => hne (List.length_eq_zero.mp h0))] at h
    exact h

/-- C8, witness: on the three-bubble cache the effect queues the three
utterances and the engine trace shows `some 1` while the second
utterance speaks. -/
theorem C8_witness :
    (speechEffect true true threeBubbleCache 0 initSpeech).queue
      = mkUtterances [bubbleA, bubbleB, bubbleC] ∧
    ((engineEvents (List.length [bubbleA, bubbleB, bubbleC])).scanl applyEvent none).getD 3 none
      = some 1 := by
  have h := C8_theorem threeBubbleCache 0 [bubbleA, bubbleB, bubbleC] initSpeech
    (by decide) (by decide) (by decide)
  exact ⟨h.1, h.2.2.2.2.2.2.1 1 (by decide)⟩

/-- C9, counterexample: the claim says any further trigger for the same
displayed page is a no-op; but the guard requires `synth.speaking`, so
after the page's one-bubble sequence has finished (`engineFinish`), a
further trigger — e.g. the cache updating again — re-enqueues the
page's utterances instead of being a no-op. -/
theorem C9_counterexample :
    (engineFinish (speechEffect true true completeCache 0 initSpeech)).queue = [] ∧
    (speechEffect true true completeCache 0
        (engineFinish (speechEffect true true completeCache 0 initSpeech))).queue
      = mkUtterances [bubbleA] ∧
    mkUtterances [bubbleA] ≠ [] := by
  decide

/-- C9, amended: the duplicate trigger is a no-op only *while the
engine is still speaking* the current page's sequence: if
`lastSpokenPageIndexRef` equals the displayed page and `synth.speaking`
is true, the effect changes nothing; once the sequence has finished, a
further trigger re-enqueues the page (see the counterexample). -/
theorem C9_amended_theorem (ttsEnabled isAnalysisEnabled : Bool) (cache : OCRCache)
    (p : Nat) (s : SpeechState) (h1 : s.lastSpokenPageIndex = some p)
    (h2 : s.speaking = true) :
    speechEffect ttsEnabled isAnalysisEnabled cache p s = s := by
  unfold speechEffect
  by_cases hb : (!(ttsEnabled && isAnalysisEnabled) : Bool) = true
  · rw [if_pos hb]
  · rw [if_neg hb, if_pos ⟨h1, by rw [h2]⟩]

/-- C9, witness: a duplicate trigger mid-sequence is the identity. -/
theorem C9_amended_witness :
    speechEffect true true completeCache 0 busySpeech = busySpeech :=
  C9_amended_theorem true true completeCache 0 busySpeech (by decide) (by decide)

/-- C10: `analyzeMangaPages` is total (a plain function here, mirroring
the source's all-enclosing `try`/`catch`) and on every failure branch —
service call throwing, empty response text, unparseable payload,
non-array payload — returns a list with one entry per input image, all
of them empty bubble lists. -/
theorem C10_theorem (n : Nat) (resp : ServiceResponse) (hfail : resp.isFailure = true) :
    analyzeMangaPages n resp = List.replicate n [] ∧
    (analyzeMangaPages n resp).length = n ∧
    ∀ l ∈ analyzeMangaPages n resp, l = [] := by
  have h := analyzeMangaPages_of_isFailure n hfail
  refine ⟨h, by rw [h, List.length_replicate], ?_⟩
  intro l hl
  rw [h] at hl
  exact List.eq_of_mem_replicate hl

/-- C10, witness: three images against an empty response text give
three empty bubble lists. -/
theorem C10_witness : analyzeMangaPages 3 .emptyText = List.replicate 3 [] :=
  (C10_theorem 3 .emptyText (by decide)).1
